import Mathlib

/-!
Shallow embedding of the admission-pipeline core of the `telegram_key`
repository (files `csrf_manager.py`, `email_auth.py`, `auth.py`,
`rate_limiter.py`), together with theorems settling the frozen claims
about its specification.

Conventions of the embedding:
* wall-clock instants are `Nat` seconds (the Python code compares
  `datetime` values; only their order matters), except in the rate
  limiter where `time.time()` differences are modelled as `Int`;
* the random collaborators (`secrets.choice` digits, `token_urlsafe`)
  are passed in as explicit arguments;
* each JSON-backed store is modelled with an explicit `saved` field:
  `_save_*` copies the in-memory data into `saved`;
* Python dictionaries keyed by user id become association lists
  (insertion-ordered, like `dict`) or total functions `Nat → Option _`
  where the code never iterates over the dictionary;
* result dictionaries become structures; user-facing message strings
  become an inductive tag carrying the data interpolated into them.
-/

namespace TelegramKey

/-! ### Callback-data string helpers

`extract_callback_data` uses Python's `"|csrf:" in s` and
`s.rsplit("|csrf:", 1)`.  Strings are modelled as `List Char`;
`splitLast` splits at the LAST occurrence of the delimiter, exactly as
`rsplit(_, 1)` does. -/

/-- The fixed delimiter `"|csrf:"` of the bound-action wire format. -/
def DELIM : List Char := ['|', 'c', 's', 'r', 'f', ':']

/-- Boolean prefix test on character lists. -/
def isPrefixL : List Char → List Char → Bool
  | [], _ => true
  | _ :: _, [] => false
  | a :: as, b :: bs => a == b && isPrefixL as bs

/-- Python substring containment `needle in hay`. -/
def hasDelim (needle : List Char) : List Char → Bool
  | [] => isPrefixL needle []
  | c :: cs => isPrefixL needle (c :: cs) || hasDelim needle cs

/-- Python `hay.rsplit(needle, 1)`: split at the last occurrence of `needle`,
returning the part before and the part after it. -/
def splitLast (needle : List Char) : List Char → Option (List Char × List Char)
  | [] => none
  | c :: cs =>
    match splitLast needle cs with
    | some (pre, post) => some (c :: pre, post)
    | none =>
      if isPrefixL needle (c :: cs) then some ([], (c :: cs).drop needle.length)
      else none

theorem isPrefixL_append_self (d r : List Char) : isPrefixL d (d ++ r) = true := by
  induction d with
  | nil => rfl
  | cons a as ih => simp [isPrefixL, ih]

theorem splitLast_eq_none_of_no_bar (hay : List Char) (h : '|' ∉ hay) :
    splitLast DELIM hay = none := by
  induction hay with
  | nil => rfl
  | cons c cs ih =>
    have hc : c ≠ '|' := fun hc => h (hc ▸ List.mem_cons_self c cs)
    have hcs : '|' ∉ cs := fun hm => h (List.mem_cons_of_mem c hm)
    have hpre : isPrefixL DELIM (c :: cs) = false := by
      simp only [DELIM, isPrefixL, Bool.and_eq_true, beq_iff_eq]
      simp only [Bool.and_eq_false_iff]
      left
      simpa [beq_iff_eq] using fun hc2 => hc hc2.symm
    simp [splitLast, ih hcs, hpre]

theorem splitLast_cons (needle : List Char) (c : Char) (cs : List Char) :
    splitLast needle (c :: cs) =
      match splitLast needle cs with
      | some (pre, post) => some (c :: pre, post)
      | none =>
        if isPrefixL needle (c :: cs) then some ([], (c :: cs).drop needle.length)
        else none := rfl

theorem splitLast_append (a t : List Char) (ht : '|' ∉ t) :
    splitLast DELIM (a ++ (DELIM ++ t)) = some (a, t) := by
  induction a with
  | nil =>
    have htail : splitLast DELIM (['c', 's', 'r', 'f', ':'] ++ t) = none := by
      apply splitLast_eq_none_of_no_bar
      intro hm
      rcases List.mem_append.mp hm with h1 | h2
      · simp at h1
      · exact ht h2
    have hpre : isPrefixL DELIM ('|' :: (['c', 's', 'r', 'f', ':'] ++ t)) = true := by
      simpa [DELIM] using isPrefixL_append_self DELIM t
    have hdrop : List.drop DELIM.length ('|' :: (['c', 's', 'r', 'f', ':'] ++ t)) = t := by
      show List.drop DELIM.length (DELIM ++ t) = t
      simp
    show splitLast DELIM ('|' :: (['c', 's', 'r', 'f', ':'] ++ t)) = some ([], t)
    rw [splitLast_cons, htail, hpre]
    simp only [if_true, Option.some.injEq, Prod.mk.injEq, true_and]
    exact hdrop
  | cons c a ih =>
    rw [List.cons_append, splitLast_cons, ih]

theorem splitLast_eq_none_of_not_hasDelim (needle hay : List Char)
    (h : hasDelim needle hay = false) : splitLast needle hay = none := by
  induction hay with
  | nil => rfl
  | cons c cs ih =>
    simp only [hasDelim, Bool.or_eq_false_iff] at h
    simp [splitLast, ih h.2, h.1]

/-! ### CSRFManager (`csrf_manager.py`)

The two parallel dictionaries `user_tokens : Dict[int, str]` and
`token_expiry : Dict[int, datetime]` are always written and deleted in
lockstep, so they are modelled as one map to a pair.
`token_lifetime = 3600` seconds. -/

structure TokenEntry where
  token : List Char
  expiresAt : Nat
  deriving DecidableEq

structure CSRFState where
  map : Nat → Option TokenEntry

/-- Source `_cleanup_user_token`: delete both dictionary entries for the user. -/
def cleanup_user_token (st : CSRFState) (user_id : Nat) : CSRFState :=
  ⟨fun u => if u = user_id then none else st.map u⟩

/-- Source `generate_token`: store the freshly drawn token with
`expiresAt = now + token_lifetime`.  The random draw of
`secrets.token_urlsafe` is the explicit argument `fresh`. -/
def generate_token (st : CSRFState) (user_id : Nat) (now : Nat)
    (fresh : List Char) : CSRFState :=
  ⟨fun u => if u = user_id then some ⟨fresh, now + 3600⟩ else st.map u⟩

/-- Source `get_user_token`: `None` if absent; expired tokens are cleaned up
and reported as `None`; otherwise the stored token. -/
def get_user_token (st : CSRFState) (user_id : Nat) (now : Nat) :
    Option (List Char) × CSRFState :=
  match st.map user_id with
  | none => (none, st)
  | some e =>
    if e.expiresAt < now then (none, cleanup_user_token st user_id)
    else (some e.token, st)

/-- Source `validate_token`: absent → false; expired → cleanup, false;
mismatch → false; otherwise true. -/
def validate_token (st : CSRFState) (user_id : Nat) (token : List Char)
    (now : Nat) : Bool × CSRFState :=
  match st.map user_id with
  | none => (false, st)
  | some e =>
    if e.expiresAt < now then (false, cleanup_user_token st user_id)
    else if e.token ≠ token then (false, st)
    else (true, st)

/-- Source `add_csrf_to_callback_data` (the spec's `bind`): append
`"|csrf:" + token`, issuing a token first if absent or expired. -/
def add_csrf_to_callback_data (st : CSRFState) (user_id : Nat)
    (callback_data : List Char) (now : Nat) (fresh : List Char) :
    List Char × CSRFState :=
  match get_user_token st user_id now with
  | (some t, st1) => (callback_data ++ (DELIM ++ t), st1)
  | (none, st1) =>
    (callback_data ++ (DELIM ++ fresh), generate_token st1 user_id now fresh)

/-- Source `extract_callback_data` (the spec's `unbind`): reject when the
delimiter is absent, otherwise `rsplit` and validate the token. -/
def extract_callback_data (st : CSRFState) (user_id : Nat)
    (callback_data : List Char) (now : Nat) :
    Option (List Char) × CSRFState :=
  if hasDelim DELIM callback_data = false then (none, st)
  else
    match splitLast DELIM callback_data with
    | none => (none, st)
    | some (data, token_part) =>
      match validate_token st user_id token_part now with
      | (true, st1) => (some data, st1)
      | (false, st1) => (none, st1)

/-! ### Email2FA (`email_auth.py`)

`codes_data["codes"]` is a JSON object keyed by `str(user_id)`; it is
modelled as an insertion-ordered association list keyed by the numeric
id (`str` of distinct ints are distinct).  `code_expiry_minutes = 60`
becomes 3600 seconds, `max_attempts = 3`.  `_save_codes` copies the
in-memory table into the `saved` field. -/

structure Challenge where
  code : String
  expires_at : Nat
  attempts : Nat
  max_attempts : Nat
  username : String
  deriving DecidableEq

/-- Association-list lookup (`key in dict` / `dict[key]`). -/
def alookup (l : List (Nat × Challenge)) (k : Nat) : Option Challenge :=
  match l with
  | [] => none
  | p :: rest => if p.1 = k then some p.2 else alookup rest k

/-- Association-list store (`dict[key] = v`): overwrite in place or append. -/
def aset (l : List (Nat × Challenge)) (k : Nat) (v : Challenge) :
    List (Nat × Challenge) :=
  match l with
  | [] => [(k, v)]
  | p :: rest => if p.1 = k then (k, v) :: rest else p :: aset rest k v

/-- Association-list delete (`del dict[key]`). -/
def adel (l : List (Nat × Challenge)) (k : Nat) : List (Nat × Challenge) :=
  l.filter (fun p => decide (p.1 ≠ k))

structure TwoFAState where
  codes : List (Nat × Challenge)
  saved : List (Nat × Challenge)
  deriving DecidableEq

/-- Source `_save_codes`: persist the whole table. -/
def twofa_save (st : TwoFAState) : TwoFAState :=
  { st with saved := st.codes }

/-- Source `_is_code_expired`: `datetime.now() > expiry_time`. -/
def is_code_expired (expires_at : Nat) (now : Nat) : Bool :=
  decide (expires_at < now)

/-- Source `_cleanup_expired_codes`: drop every expired entry; save only when
something was dropped. -/
def cleanup_expired_codes (st : TwoFAState) (now : Nat) : TwoFAState :=
  let expired := st.codes.filter (fun p => is_code_expired p.2.expires_at now)
  if expired.isEmpty then st
  else twofa_save { st with
    codes := st.codes.filter (fun p => !is_code_expired p.2.expires_at now) }

/-- Source `send_verification_code` (the spec's `issue`).  The random 6-digit
draw is the argument `code`; `deliveryOk` is the outcome of the SMTP
send.  Returns the code on success, `none` on delivery failure. -/
def send_verification_code (st : TwoFAState) (user_id : Nat) (username : String)
    (code : String) (now : Nat) (deliveryOk : Bool) :
    Option String × TwoFAState :=
  let st0 := cleanup_expired_codes st now
  let ch : Challenge :=
    { code := code, expires_at := now + 3600, attempts := 0,
      max_attempts := 3, username := username }
  let st1 := twofa_save { st0 with codes := aset st0.codes user_id ch }
  if deliveryOk then (some code, st1)
  else
    let st2 :=
      if (alookup st1.codes user_id).isSome then
        twofa_save { st1 with codes := adel st1.codes user_id }
      else st1
    (none, st2)

/-- Tagged model of the user-facing message strings of `verify_code`;
`wrongCode` carries the interpolated remaining-attempt count. -/
inductive VerifyMsg where
  | codeNotFound
  | codeExpired
  | tooManyAttempts
  | codeOk
  | wrongCode (remaining : Nat)
  deriving DecidableEq

structure VerifyResult where
  success : Bool
  message : VerifyMsg
  can_retry : Bool
  deriving DecidableEq

/-- Source `verify_code` (the spec's `verify`). -/
def verify_code (st : TwoFAState) (user_id : Nat) (input_code : String)
    (now : Nat) : VerifyResult × TwoFAState :=
  match alookup st.codes user_id with
  | none => (⟨false, .codeNotFound, false⟩, st)
  | some code_info =>
    if is_code_expired code_info.expires_at now then
      (⟨false, .codeExpired, false⟩,
       twofa_save { st with codes := adel st.codes user_id })
    else if code_info.max_attempts ≤ code_info.attempts then
      (⟨false, .tooManyAttempts, false⟩,
       twofa_save { st with codes := adel st.codes user_id })
    else if input_code = code_info.code then
      (⟨true, .codeOk, false⟩,
       twofa_save { st with codes := adel st.codes user_id })
    else
      let attempts1 := code_info.attempts + 1
      let remaining := code_info.max_attempts - attempts1
      let st1 := twofa_save { st with
        codes := aset st.codes user_id { code_info with attempts := attempts1 } }
      if 0 < remaining then
        (⟨false, .wrongCode remaining, true⟩, st1)
      else
        (⟨false, .tooManyAttempts, false⟩,
         twofa_save { st1 with codes := adel st1.codes user_id })

/-! ### AuthManager (`auth.py`)

`allowed_users = {"users": [...], "pending_requests": [...]}` with the
file copy modelled as `saved`; `_save_allowed_users` copies the
in-memory data there.  Timestamps are `Nat`. -/

structure ApprovedUser where
  user_id : Nat
  username : String
  approved_at : Nat
  deriving DecidableEq

structure PendingReq where
  user_id : Nat
  username : String
  timestamp : Nat
  deriving DecidableEq

structure RegistryData where
  users : List ApprovedUser
  pending_requests : List PendingReq
  deriving DecidableEq

structure Registry where
  data : RegistryData
  saved : RegistryData
  deriving DecidableEq

/-- Source `_save_allowed_users`: persist the whole registry. -/
def reg_save (st : Registry) : Registry :=
  { st with saved := st.data }

/-- Source `is_user_allowed`: membership of the id in the `users` list
(`str(user_id)` of distinct ints are distinct). -/
def is_user_allowed (st : Registry) (user_id : Nat) : Bool :=
  st.data.users.any (fun u => decide (u.user_id = user_id))

/-- Source `add_user_request` (the spec's `requestAccess`): no-op when a
pending request for the id exists, otherwise append and save. -/
def add_user_request (st : Registry) (user_id : Nat) (username : String)
    (now : Nat) : Registry :=
  if st.data.pending_requests.any (fun r => decide (r.user_id = user_id)) then st
  else
    reg_save { st with data := { st.data with
      pending_requests :=
        st.data.pending_requests ++ [⟨user_id, username, now⟩] } }

/-- Source `approve_user` (the spec's `approve`): always filter the pending
requests; append to `users` and save only when not already allowed. -/
def approve_user (st : Registry) (user_id : Nat) (username : String)
    (now : Nat) : Bool × Registry :=
  let st1 : Registry := { st with data := { st.data with
    pending_requests :=
      st.data.pending_requests.filter (fun r => decide (r.user_id ≠ user_id)) } }
  if !is_user_allowed st1 user_id then
    (true, reg_save { st1 with data := { st1.data with
      users := st1.data.users ++ [⟨user_id, username, now⟩] } })
  else (false, st1)

/-- Source `deny_user` (the spec's `deny`): filter the pending requests; save
and report `true` only when the list shrank. -/
def deny_user (st : Registry) (user_id : Nat) (username : String) :
    Bool × Registry :=
  let original_count := st.data.pending_requests.length
  let st1 : Registry := { st with data := { st.data with
    pending_requests :=
      st.data.pending_requests.filter (fun r => decide (r.user_id ≠ user_id)) } }
  if st1.data.pending_requests.length < original_count then (true, reg_save st1)
  else (false, st1)

/-- Source `revoke_user_access` (the spec's `revoke`): filter the users list;
save and report `true` only when the list shrank. -/
def revoke_user_access (st : Registry) (user_id : Nat) : Bool × Registry :=
  let original_count := st.data.users.length
  let st1 : Registry := { st with data := { st.data with
    users := st.data.users.filter (fun u => decide (u.user_id ≠ user_id)) } }
  if st1.data.users.length < original_count then (true, reg_save st1)
  else (false, st1)

/-- A pending request for the id exists. -/
def memPending (st : Registry) (user_id : Nat) : Bool :=
  st.data.pending_requests.any (fun r => decide (r.user_id = user_id))

/-- Number of `users` entries carrying the id. -/
def countApproved (st : Registry) (user_id : Nat) : Nat :=
  (st.data.users.filter (fun u => decide (u.user_id = user_id))).length

/-- Data-model invariant 1 of the spec: nobody is both pending and
approved. -/
def RegInv (st : Registry) : Prop :=
  st.data.pending_requests.all (fun r => !is_user_allowed st r.user_id) = true

/-- The persisted copy agrees with the in-memory registry. -/
def InSync (st : Registry) : Prop :=
  st.saved = st.data

/-! ### RateLimiter (`rate_limiter.py`)

The three checkers `check_pin_rate_limit`, `check_twofa_rate_limit`
and `check_request_rate_limit` share one body differing only in the
window length and the maximum count; `check_rate_limit` is that body.
`time.time()` instants are `Int` (only differences matter). -/

structure RateResult where
  allowed : Bool
  remaining_time : Option Int
  remaining_attempts : Option Int
  deriving DecidableEq

/-- Python `min` of a non-empty list (junk value 0 on `[]`, which the
code never reaches because the list length is at least the positive
maximum there). -/
def listMin : List Int → Int
  | [] => 0
  | x :: xs => xs.foldl min x

/-- Shared body of the three `check_*_rate_limit` methods: prune
entries older than the window, deny with the remaining wait when the
pruned list has reached the maximum, otherwise append `now` and allow
with the remaining quota. -/
def check_rate_limit (window maxAttempts now : Int) (attempts : List Int) :
    RateResult × List Int :=
  let pruned := attempts.filter (fun t => decide (now - t < window))
  if maxAttempts ≤ (pruned.length : Int) then
    (⟨false, some (window - (now - listMin pruned)), none⟩, pruned)
  else
    (⟨true, none, some (maxAttempts - ((pruned.length : Int) + 1))⟩,
     pruned ++ [now])

/-- Source `check_pin_rate_limit` with the constructor defaults
(`pin_lockout_duration = 300`, `max_pin_attempts = 5`). -/
def check_pin_rate_limit (now : Int) (attempts : List Int) :
    RateResult × List Int :=
  check_rate_limit 300 5 now attempts

/-- Source `check_twofa_rate_limit` with the constructor defaults
(`twofa_lockout_duration = 180`, `max_twofa_attempts = 3`). -/
def check_twofa_rate_limit (now : Int) (attempts : List Int) :
    RateResult × List Int :=
  check_rate_limit 180 3 now attempts

/-- Source `check_request_rate_limit` (`request_window = 60`,
`max_requests_per_minute = 10`). -/
def check_request_rate_limit (now : Int) (attempts : List Int) :
    RateResult × List Int :=
  check_rate_limit 60 10 now attempts

/-- Run a sequence of `check` calls at the given instants, collecting
the `allowed` verdicts and threading the per-principal list. -/
def runChecks (window maxAttempts : Int) (times : List Int)
    (attempts : List Int) : List Bool × List Int :=
  match times with
  | [] => ([], attempts)
  | t :: rest =>
    let step := check_rate_limit window maxAttempts t attempts
    let restRun := runChecks window maxAttempts rest step.2
    (step.1.allowed :: restRun.1, restRun.2)

/-! ### Helper lemmas about the association list -/

theorem alookup_aset_self (l : List (Nat × Challenge)) (k : Nat) (v : Challenge) :
    alookup (aset l k v) k = some v := by
  induction l with
  | nil => simp [aset, alookup]
  | cons p rest ih =>
    by_cases h : p.1 = k
    · simp [aset, h, alookup]
    · simp [aset, h, alookup, ih]

theorem alookup_adel_self (l : List (Nat × Challenge)) (k : Nat) :
    alookup (adel l k) k = none := by
  induction l with
  | nil => rfl
  | cons p rest ih =>
    by_cases h : p.1 = k
    · simpa [adel, List.filter_cons, h] using ih
    · simpa [adel, List.filter_cons, h, alookup] using ih

/-! ### Claim theorems -/

/-- C6: if delivery of the second-factor message fails,
`send_verification_code` returns failure and afterwards no challenge
for the principal exists, neither in the in-memory table nor in the
persisted copy. -/
theorem issue_delivery_failure_discards (st : TwoFAState) (user_id : Nat)
    (username code : String) (now : Nat) :
    (send_verification_code st user_id username code now false).1 = none ∧
    alookup (send_verification_code st user_id username code now false).2.codes
      user_id = none ∧
    alookup (send_verification_code st user_id username code now false).2.saved
      user_id = none := by
  have hsome :
      alookup (aset (cleanup_expired_codes st now).codes user_id
        ⟨code, now + 3600, 0, 3, username⟩) user_id =
        some ⟨code, now + 3600, 0, 3, username⟩ :=
    alookup_aset_self _ _ _
  have hnone :
      alookup (adel (aset (cleanup_expired_codes st now).codes user_id
        ⟨code, now + 3600, 0, 3, username⟩) user_id) user_id = none :=
    alookup_adel_self _ _
  simp [send_verification_code, twofa_save, hsome, hnone]

/-- C7: after `send_verification_code` succeeds, a `verify_code` call
with the correct code before expiry succeeds, and an immediate second
`verify_code` with the same code fails with `can_retry = false`
because the challenge was consumed. -/
theorem issue_then_verify_consumes (st : TwoFAState) (user_id : Nat)
    (username code : String) (now now' : Nat) (hexp : ¬ now + 3600 < now') :
    (verify_code (send_verification_code st user_id username code now true).2
        user_id code now').1 = ⟨true, .codeOk, false⟩ ∧
    (verify_code
        (verify_code (send_verification_code st user_id username code now true).2
          user_id code now').2 user_id code now').1 =
      ⟨false, .codeNotFound, false⟩ := by
  have h1 : (send_verification_code st user_id username code now true).2.codes
      = aset (cleanup_expired_codes st now).codes user_id
          ⟨code, now + 3600, 0, 3, username⟩ := by
    simp [send_verification_code, twofa_save]
  have hsome := alookup_aset_self (cleanup_expired_codes st now).codes user_id
    (⟨code, now + 3600, 0, 3, username⟩ : Challenge)
  have hfirst : verify_code
      (send_verification_code st user_id username code now true).2
        user_id code now'
      = (⟨true, .codeOk, false⟩,
         twofa_save { (send_verification_code st user_id username code now true).2
            with codes := adel (send_verification_code st user_id
              username code now true).2.codes user_id }) := by
    simp [verify_code, h1, hsome, is_code_expired, hexp]
  refine ⟨by rw [hfirst], ?_⟩
  rw [hfirst]
  have hgone : alookup (twofa_save
      { (send_verification_code st user_id username code now true).2
        with codes := adel (send_verification_code st user_id
          username code now true).2.codes user_id }).codes user_id = none := by
    simpa [twofa_save] using
      alookup_adel_self (send_verification_code st user_id
        username code now true).2.codes user_id
  simp [verify_code, hgone]

/-- Closed witness for C7 at a concrete state and clock. -/
theorem issue_then_verify_consumes_witness :
    (verify_code (send_verification_code ⟨[], []⟩ 7 "alice" "123456" 0 true).2
        7 "123456" 10).1 = ⟨true, .codeOk, false⟩ ∧
    (verify_code
        (verify_code (send_verification_code ⟨[], []⟩ 7 "alice" "123456" 0 true).2
          7 "123456" 10).2 7 "123456" 10).1 =
      ⟨false, .codeNotFound, false⟩ :=
  issue_then_verify_consumes ⟨[], []⟩ 7 "alice" "123456" 0 10 (by decide)

/-- C9: an incoming bound-action string without the fixed delimiter is
rejected outright by `extract_callback_data`: the result is `none` and
the token state is returned unchanged. -/
theorem extract_missing_delimiter_rejects (st : CSRFState) (user_id : Nat)
    (callback_data : List Char) (now : Nat)
    (h : hasDelim DELIM callback_data = false) :
    extract_callback_data st user_id callback_data now = (none, st) := by
  simp [extract_callback_data, h]

/-- Closed witness for C9 on the plain action string `approve_5`. -/
theorem extract_missing_delimiter_rejects_witness :
    hasDelim DELIM ("approve_5".toList) = false ∧
    extract_callback_data ⟨fun _ => none⟩ 7 ("approve_5".toList) 0 =
      (none, ⟨fun _ => none⟩) :=
  ⟨by decide, extract_missing_delimiter_rejects ⟨fun _ => none⟩ 7 _ 0 (by decide)⟩

/-- C10: a denied `check` call appends nothing: the stored attempt list
afterwards is exactly the pruned list, and repeating the denied call at
the same instant returns the same verdict, wait time and list, so
repeated denied calls never extend the wait. -/
theorem check_denied_no_append (window maxAttempts now : Int) (l : List Int)
    (h : (check_rate_limit window maxAttempts now l).1.allowed = false) :
    (check_rate_limit window maxAttempts now l).2 =
      l.filter (fun t => decide (now - t < window)) ∧
    check_rate_limit window maxAttempts now
        ((check_rate_limit window maxAttempts now l).2) =
      check_rate_limit window maxAttempts now l := by
  by_cases hc : maxAttempts ≤
      ((l.filter (fun t => decide (now - t < window))).length : Int)
  · have hval : check_rate_limit window maxAttempts now l =
        (⟨false, some (window - (now - listMin
            (l.filter (fun t => decide (now - t < window))))), none⟩,
         l.filter (fun t => decide (now - t < window))) := by
      simp [check_rate_limit, hc]
    have hidem : (l.filter (fun t => decide (now - t < window))).filter
        (fun t => decide (now - t < window)) =
        l.filter (fun t => decide (now - t < window)) := by
      apply List.filter_eq_self.mpr
      intro a ha
      exact (List.mem_filter.mp ha).2
    refine ⟨by rw [hval], ?_⟩
    rw [hval]
    simp [check_rate_limit, hidem, hc]
  · exfalso
    have : (check_rate_limit window maxAttempts now l).1.allowed = true := by
      simp [check_rate_limit, hc]
    rw [this] at h
    simp at h

/-- Closed witness for C10: five attempts inside the window deny the
next pin check and leave the list unchanged. -/
theorem check_denied_no_append_witness :
    (check_rate_limit 300 5 10 [0, 1, 2, 3, 4]).1.allowed = false ∧
    (check_rate_limit 300 5 10 [0, 1, 2, 3, 4]).2 =
      [0, 1, 2, 3, 4].filter (fun t => decide ((10 : Int) - t < 300)) :=
  ⟨by decide, (check_denied_no_append 300 5 10 [0, 1, 2, 3, 4] (by decide)).1⟩

/-- C1: `verify_code` follows the specified case analysis: no stored
challenge → failure without retry; expired challenge → discard and
fail without retry; attempt budget already used up → discard and fail
without retry; matching code → discard and succeed; mismatch →
increment the attempt counter, discarding without retry when the
budget is now reached and otherwise allowing a retry with the
remaining-attempt count in the message. -/
theorem verify_code_case_analysis (st : TwoFAState) (user_id : Nat)
    (input_code : String) (now : Nat) :
    (alookup st.codes user_id = none →
      verify_code st user_id input_code now = (⟨false, .codeNotFound, false⟩, st)) ∧
    (∀ ci, alookup st.codes user_id = some ci → ci.expires_at < now →
      (verify_code st user_id input_code now).1 = ⟨false, .codeExpired, false⟩ ∧
      alookup (verify_code st user_id input_code now).2.codes user_id = none) ∧
    (∀ ci, alookup st.codes user_id = some ci → ¬ ci.expires_at < now →
      ci.max_attempts ≤ ci.attempts →
      (verify_code st user_id input_code now).1 = ⟨false, .tooManyAttempts, false⟩ ∧
      alookup (verify_code st user_id input_code now).2.codes user_id = none) ∧
    (∀ ci, alookup st.codes user_id = some ci → ¬ ci.expires_at < now →
      ci.attempts < ci.max_attempts → input_code = ci.code →
      (verify_code st user_id input_code now).1 = ⟨true, .codeOk, false⟩ ∧
      alookup (verify_code st user_id input_code now).2.codes user_id = none) ∧
    (∀ ci, alookup st.codes user_id = some ci → ¬ ci.expires_at < now →
      ci.attempts < ci.max_attempts → input_code ≠ ci.code →
      (ci.attempts + 1 < ci.max_attempts →
        (verify_code st user_id input_code now).1 =
          ⟨false, .wrongCode (ci.max_attempts - (ci.attempts + 1)), true⟩ ∧
        alookup (verify_code st user_id input_code now).2.codes user_id =
          some { ci with attempts := ci.attempts + 1 }) ∧
      (ci.max_attempts ≤ ci.attempts + 1 →
        (verify_code st user_id input_code now).1 =
          ⟨false, .tooManyAttempts, false⟩ ∧
        alookup (verify_code st user_id input_code now).2.codes user_id = none)) := by
  refine ⟨?_, ?_, ?_, ?_, ?_⟩
  · intro hnone
    simp [verify_code, hnone]
  · intro ci hci hexp
    have hval : verify_code st user_id input_code now =
        (⟨false, .codeExpired, false⟩,
         twofa_save { st with codes := adel st.codes user_id }) := by
      simp [verify_code, hci, is_code_expired, hexp]
    rw [hval]
    exact ⟨rfl, by simpa [twofa_save] using alookup_adel_self st.codes user_id⟩
  · intro ci hci hexp hmax
    have hval : verify_code st user_id input_code now =
        (⟨false, .tooManyAttempts, false⟩,
         twofa_save { st with codes := adel st.codes user_id }) := by
      simp [verify_code, hci, is_code_expired, hexp, hmax]
    rw [hval]
    exact ⟨rfl, by simpa [twofa_save] using alookup_adel_self st.codes user_id⟩
  · intro ci hci hexp hlt hcode
    have hval : verify_code st user_id input_code now =
        (⟨true, .codeOk, false⟩,
         twofa_save { st with codes := adel st.codes user_id }) := by
      simp [verify_code, hci, is_code_expired, hexp, Nat.not_le.mpr hlt, hcode]
    rw [hval]
    exact ⟨rfl, by simpa [twofa_save] using alookup_adel_self st.codes user_id⟩
  · intro ci hci hexp hlt hcode
    constructor
    · intro hroom
      have hpos : 0 < ci.max_attempts - (ci.attempts + 1) := by omega
      have hval : verify_code st user_id input_code now =
          (⟨false, .wrongCode (ci.max_attempts - (ci.attempts + 1)), true⟩,
           twofa_save { st with codes := aset st.codes user_id { ci with attempts := ci.attempts + 1 } }) := by
        simp [verify_code, hci, is_code_expired, hexp, Nat.not_le.mpr hlt,
          hcode, hpos]
      rw [hval]
      exact ⟨rfl, by simpa [twofa_save] using
        alookup_aset_self st.codes user_id { ci with attempts := ci.attempts + 1 }⟩
    · intro hdone
      have hzero : ¬ 0 < ci.max_attempts - (ci.attempts + 1) := by omega
      have hval : verify_code st user_id input_code now =
          (⟨false, .tooManyAttempts, false⟩,
           twofa_save { twofa_save { st with codes := aset st.codes user_id { ci with attempts := ci.attempts + 1 } } with codes := adel (aset st.codes user_id { ci with attempts := ci.attempts + 1 }) user_id }) := by
        simp [verify_code, hci, is_code_expired, hexp, Nat.not_le.mpr hlt,
          hcode, hzero, twofa_save]
      rw [hval]
      exact ⟨rfl, by simpa [twofa_save] using
        alookup_adel_self (aset st.codes user_id
          { ci with attempts := ci.attempts + 1 }) user_id⟩

/-- Closed witness for C1: a first mismatch against a fresh challenge
is retryable with two attempts left in the message. -/
theorem verify_code_case_analysis_witness :
    (verify_code ⟨[(7, ⟨"123456", 100, 0, 3, "alice"⟩)],
        [(7, ⟨"123456", 100, 0, 3, "alice"⟩)]⟩ 7 "000000" 50).1 =
      ⟨false, .wrongCode 2, true⟩ :=
  (((verify_code_case_analysis ⟨[(7, ⟨"123456", 100, 0, 3, "alice"⟩)],
        [(7, ⟨"123456", 100, 0, 3, "alice"⟩)]⟩ 7 "000000" 50).2.2.2.2
      ⟨"123456", 100, 0, 3, "alice"⟩ (by decide) (by decide) (by decide)
      (by decide)).1 (by decide)).1

/-- C8: `approve_user` always removes the principal's pending
requests; when the principal is not yet approved it appends exactly
one `users` entry and returns `true`; when already approved it returns
`false`, leaves `users` unchanged and hence introduces no duplicate. -/
theorem approve_user_spec (st : Registry) (user_id : Nat) (username : String)
    (now : Nat) :
    (approve_user st user_id username now).2.data.pending_requests =
      st.data.pending_requests.filter (fun r => decide (r.user_id ≠ user_id)) ∧
    (is_user_allowed st user_id = false →
      (approve_user st user_id username now).1 = true ∧
      (approve_user st user_id username now).2.data.users =
        st.data.users ++ [⟨user_id, username, now⟩] ∧
      (countApproved st user_id = 0 →
        countApproved (approve_user st user_id username now).2 user_id = 1)) ∧
    (is_user_allowed st user_id = true →
      (approve_user st user_id username now).1 = false ∧
      (approve_user st user_id username now).2.data.users = st.data.users ∧
      (countApproved st user_id ≤ 1 →
        countApproved (approve_user st user_id username now).2 user_id ≤ 1)) := by
  by_cases hall : is_user_allowed st user_id = true
  · have hval : approve_user st user_id username now =
        (false, { st with data := { st.data with
          pending_requests := st.data.pending_requests.filter
            (fun r => decide (r.user_id ≠ user_id)) } }) := by
      simp only [approve_user]
      rw [show is_user_allowed { st with data := { st.data with
          pending_requests := st.data.pending_requests.filter
            (fun r => decide (r.user_id ≠ user_id)) } } user_id =
          is_user_allowed st user_id from rfl, hall]
      rfl
    refine ⟨by rw [hval], ?_, ?_⟩
    · intro hfalse
      rw [hall] at hfalse
      cases hfalse
    · intro _
      refine ⟨by rw [hval], by rw [hval], ?_⟩
      intro hle
      have : countApproved (approve_user st user_id username now).2 user_id =
          countApproved st user_id := by
        rw [hval]
        rfl
      rw [this]
      exact hle
  · have hall' : is_user_allowed st user_id = false := by
      simpa using hall
    have hval : approve_user st user_id username now =
        (true, reg_save { st with data := { st.data with
          pending_requests := st.data.pending_requests.filter
            (fun r => decide (r.user_id ≠ user_id)),
          users := st.data.users ++ [⟨user_id, username, now⟩] } }) := by
      simp only [approve_user]
      rw [show is_user_allowed { st with data := { st.data with
          pending_requests := st.data.pending_requests.filter
            (fun r => decide (r.user_id ≠ user_id)) } } user_id =
          is_user_allowed st user_id from rfl, hall']
      rfl
    refine ⟨by rw [hval]; rfl, ?_, ?_⟩
    · intro _
      refine ⟨by rw [hval], by rw [hval]; rfl, ?_⟩
      intro hzero
      have hcnt : countApproved (approve_user st user_id username now).2 user_id =
          countApproved st user_id + 1 := by
        rw [hval]
        show ((st.data.users ++ [(⟨user_id, username, now⟩ : ApprovedUser)]).filter
          (fun u => decide (u.user_id = user_id))).length = _
        rw [List.filter_append]
        simp [countApproved]
      omega
    · intro htrue
      rw [htrue] at hall'
      cases hall'

/-- Closed witness for C8 at a fresh registry: approving a pending
principal succeeds and yields exactly one approved entry. -/
theorem approve_user_spec_witness :
    (approve_user ⟨⟨[], [⟨1, "u", 0⟩]⟩, ⟨[], [⟨1, "u", 0⟩]⟩⟩ 1 "u" 1).1 = true ∧
    countApproved (approve_user ⟨⟨[], [⟨1, "u", 0⟩]⟩,
      ⟨[], [⟨1, "u", 0⟩]⟩⟩ 1 "u" 1).2 1 = 1 :=
  ⟨((approve_user_spec ⟨⟨[], [⟨1, "u", 0⟩]⟩, ⟨[], [⟨1, "u", 0⟩]⟩⟩ 1 "u" 1).2.1
      (by decide)).1,
   ((approve_user_spec ⟨⟨[], [⟨1, "u", 0⟩]⟩, ⟨[], [⟨1, "u", 0⟩]⟩⟩ 1 "u" 1).2.1
      (by decide)).2.2 (by decide)⟩

theorem validate_token_fst_true_iff (st : CSRFState) (user_id : Nat)
    (token : List Char) (now : Nat) :
    (validate_token st user_id token now).1 = true ↔
      ∃ e, st.map user_id = some e ∧ ¬ e.expiresAt < now ∧ e.token = token := by
  cases hm : st.map user_id with
  | none => simp [validate_token, hm]
  | some e =>
    by_cases hexp : e.expiresAt < now
    · simp [validate_token, hm, hexp]
    · by_cases htok : e.token = token
      · simp [validate_token, hm, hexp, htok]
        omega
      · simp [validate_token, hm, hexp, htok]

theorem extract_append_eq (st : CSRFState) (user_id : Nat) (a t : List Char)
    (now : Nat) (ht : '|' ∉ t) :
    extract_callback_data st user_id (a ++ (DELIM ++ t)) now =
      match validate_token st user_id t now with
      | (true, st1) => (some a, st1)
      | (false, st1) => (none, st1) := by
  have hsplit := splitLast_append a t ht
  have hhas : ¬ hasDelim DELIM (a ++ (DELIM ++ t)) = false := by
    intro hfalse
    rw [splitLast_eq_none_of_not_hasDelim _ _ hfalse] at hsplit
    cases hsplit
  rw [extract_callback_data, if_neg hhas, hsplit]

/-- C4: binding an action for a principal and unbinding it before the
bound token expires returns the original action; and for any incoming
bound action carrying an embedded token free of the delimiter
character, `extract_callback_data` accepts exactly when the principal
has a stored token that is unexpired and equal to the embedded one —
so a tampered token, a token of a different principal (different from
the stored one) and an expired token are all rejected. -/
theorem csrf_bind_roundtrip_and_reject (st : CSRFState) (user_id : Nat)
    (callback_data : List Char) (now now' : Nat) (fresh : List Char)
    (hWF : ∀ e, st.map user_id = some e → '|' ∉ e.token)
    (hfresh : '|' ∉ fresh) :
    (∀ e, (add_csrf_to_callback_data st user_id callback_data now fresh).2.map
        user_id = some e → ¬ e.expiresAt < now' →
      (extract_callback_data
          (add_csrf_to_callback_data st user_id callback_data now fresh).2
          user_id
          (add_csrf_to_callback_data st user_id callback_data now fresh).1
          now').1 = some callback_data) ∧
    (∀ a t, '|' ∉ t →
      ((extract_callback_data st user_id (a ++ (DELIM ++ t)) now').1 = some a ↔
        ∃ e, st.map user_id = some e ∧ ¬ e.expiresAt < now' ∧ e.token = t)) := by
  constructor
  · intro e hmap hexp'
    have key : ∀ (st2 : CSRFState) (tok : List Char), '|' ∉ tok →
        st2.map user_id = some e → e.token = tok →
        (extract_callback_data st2 user_id
          (callback_data ++ (DELIM ++ tok)) now').1 = some callback_data := by
      intro st2 tok htok hm2 hetok
      rw [extract_append_eq st2 user_id callback_data tok now' htok]
      have hvalid : (validate_token st2 user_id tok now').1 = true :=
        (validate_token_fst_true_iff st2 user_id tok now').mpr
          ⟨e, hm2, hexp', hetok⟩
      cases hv : validate_token st2 user_id tok now' with
      | mk ok st3 =>
        rw [hv] at hvalid
        simp only at hvalid
        rw [hvalid]
    cases hm : st.map user_id with
    | none =>
      have hbind : add_csrf_to_callback_data st user_id callback_data now fresh =
          (callback_data ++ (DELIM ++ fresh),
           generate_token st user_id now fresh) := by
        simp [add_csrf_to_callback_data, get_user_token, hm]
      rw [hbind] at hmap ⊢
      have hgen : (generate_token st user_id now fresh).map user_id =
          some ⟨fresh, now + 3600⟩ := by
        simp [generate_token]
      rw [hgen] at hmap
      have he : e = ⟨fresh, now + 3600⟩ := by
        cases hmap
        rfl
      exact key _ fresh hfresh (by rw [he]; exact hgen) (by rw [he])
    | some e0 =>
      by_cases hexp : e0.expiresAt < now
      · have hbind : add_csrf_to_callback_data st user_id callback_data now fresh =
            (callback_data ++ (DELIM ++ fresh),
             generate_token (cleanup_user_token st user_id) user_id now fresh) := by
          simp [add_csrf_to_callback_data, get_user_token, hm, hexp]
        rw [hbind] at hmap ⊢
        have hgen : (generate_token (cleanup_user_token st user_id) user_id
            now fresh).map user_id = some ⟨fresh, now + 3600⟩ := by
          simp [generate_token]
        rw [hgen] at hmap
        have he : e = ⟨fresh, now + 3600⟩ := by
          cases hmap
          rfl
        exact key _ fresh hfresh (by rw [he]; exact hgen) (by rw [he])
      · have hbind : add_csrf_to_callback_data st user_id callback_data now fresh =
            (callback_data ++ (DELIM ++ e0.token), st) := by
          simp [add_csrf_to_callback_data, get_user_token, hm, hexp]
        rw [hbind] at hmap ⊢
        have he : e = e0 := by
          rw [hm] at hmap
          cases hmap
          rfl
        exact key st e0.token (hWF e0 hm) (by rw [hm, he]) (by rw [he])
  · intro a t ht
    rw [extract_append_eq st user_id a t now' ht]
    rw [← validate_token_fst_true_iff st user_id t now']
    cases hv : validate_token st user_id t now' with
    | mk ok st1 =>
      cases ok
      · simp
      · simp

/-- Closed witness for C4: bind then unbind round-trips on a fresh
state, and a tampered token is rejected. -/
theorem csrf_bind_roundtrip_and_reject_witness :
    (extract_callback_data
        (add_csrf_to_callback_data ⟨fun _ => none⟩ 1 ("rm_5".toList) 0
          ("AbCd1234".toList)).2 1
        (add_csrf_to_callback_data ⟨fun _ => none⟩ 1 ("rm_5".toList) 0
          ("AbCd1234".toList)).1 10).1 = some ("rm_5".toList) ∧
    ¬ (extract_callback_data ⟨fun _ => none⟩ 1
        ("rm_5".toList ++ (DELIM ++ "XYZ".toList)) 10).1 = some ("rm_5".toList) := by
  have h := csrf_bind_roundtrip_and_reject ⟨fun _ => none⟩ 1 ("rm_5".toList) 0 10
    ("AbCd1234".toList) (fun e he => nomatch he) (by decide)
  refine ⟨h.1 ⟨"AbCd1234".toList, 0 + 3600⟩ rfl (by decide), ?_⟩
  intro habs
  rcases (h.2 ("rm_5".toList) ("XYZ".toList) (by decide)).mp habs with ⟨e, he, -, -⟩
  cases he

theorem runChecks_all_allowed (window maxAttempts lo hi : Int)
    (hwin : hi - lo < window) (ts : List Int) :
    ∀ l : List Int, (∀ t ∈ ts, lo ≤ t ∧ t ≤ hi) → (∀ x ∈ l, lo ≤ x ∧ x ≤ hi) →
      ((l.length : Int) + (ts.length : Int) ≤ maxAttempts) →
      runChecks window maxAttempts ts l =
        (List.replicate ts.length true, l ++ ts) := by
  induction ts with
  | nil =>
    intro l _ _ _
    simp [runChecks]
  | cons t rest ih =>
    intro l hts hl hlen
    have hfilt : l.filter (fun x => decide (t - x < window)) = l := by
      apply List.filter_eq_self.mpr
      intro x hx
      have h1 := hl x hx
      have h2 := hts t (List.mem_cons_self t rest)
      have : t - x < window := by omega
      simpa using this
    have hnotle : ¬ maxAttempts ≤ (l.length : Int) := by
      simp only [List.length_cons] at hlen
      push_cast at hlen
      omega
    have hstep : check_rate_limit window maxAttempts t l =
        (⟨true, none, some (maxAttempts - ((l.length : Int) + 1))⟩, l ++ [t]) := by
      simp [check_rate_limit, hfilt, hnotle]
    have hrec := ih (l ++ [t])
      (fun t' ht' => hts t' (List.mem_cons_of_mem t ht'))
      (by
        intro x hx
        rcases List.mem_append.mp hx with h | h
        · exact hl x h
        · have : x = t := by simpa using h
          exact this ▸ hts t (List.mem_cons_self t rest))
      (by
        simp only [List.length_append, List.length_singleton,
          List.length_cons, List.length_nil] at hlen ⊢
        push_cast at hlen ⊢
        omega)
    show ((check_rate_limit window maxAttempts t l).1.allowed ::
        (runChecks window maxAttempts rest
          (check_rate_limit window maxAttempts t l).2).1,
      (runChecks window maxAttempts rest
          (check_rate_limit window maxAttempts t l).2).2) = _
    rw [hstep]
    simp only [hrec]
    simp [List.replicate_succ, List.append_assoc]

/-- C5: with all instants inside one window, the first `max` checks
are all allowed and record their instants; the `(max+1)`th check is
denied with `remainingWait = window - (now - oldestSurvivingTimestamp)`
and no new timestamp; once the window has elapsed past every surviving
timestamp the next check is allowed again; and any allowed check
appends the current instant and reports the remaining quota. -/
theorem rate_limit_window_behaviour (window maxAttempts lo hi tf : Int)
    (ts : List Int) (hmax : 0 < maxAttempts) (hwin : hi - lo < window)
    (hts : ∀ t ∈ ts, lo ≤ t ∧ t ≤ hi) (htf : lo ≤ tf ∧ tf ≤ hi)
    (hlen : (ts.length : Int) = maxAttempts) :
    runChecks window maxAttempts ts [] =
      (List.replicate ts.length true, ts) ∧
    (check_rate_limit window maxAttempts tf ts).1.allowed = false ∧
    (check_rate_limit window maxAttempts tf ts).1.remaining_time =
      some (window - (tf - listMin ts)) ∧
    (check_rate_limit window maxAttempts tf ts).2 = ts ∧
    (∀ n2, (∀ x ∈ ts, window ≤ n2 - x) →
      (check_rate_limit window maxAttempts n2 ts).1.allowed = true) ∧
    (∀ n3 l3,
      ((l3.filter (fun t => decide (n3 - t < window))).length : Int) <
          maxAttempts →
      check_rate_limit window maxAttempts n3 l3 =
        (⟨true, none, some (maxAttempts -
            (((l3.filter (fun t => decide (n3 - t < window))).length : Int)
              + 1))⟩,
         l3.filter (fun t => decide (n3 - t < window)) ++ [n3])) := by
  have hall : runChecks window maxAttempts ts [] =
      (List.replicate ts.length true, ts) := by
    have := runChecks_all_allowed window maxAttempts lo hi hwin ts []
      hts (by intro x hx; cases hx) (by simp [hlen])
    simpa using this
  have hfilt : ts.filter (fun x => decide (tf - x < window)) = ts := by
    apply List.filter_eq_self.mpr
    intro x hx
    have h1 := hts x hx
    have : tf - x < window := by omega
    simpa using this
  have hge : maxAttempts ≤ ((ts.filter
      (fun x => decide (tf - x < window))).length : Int) := by
    rw [hfilt, hlen]
  have hdeny : check_rate_limit window maxAttempts tf ts =
      (⟨false, some (window - (tf - listMin ts)), none⟩, ts) := by
    have : check_rate_limit window maxAttempts tf ts =
        (⟨false, some (window - (tf - listMin (ts.filter
            (fun x => decide (tf - x < window))))), none⟩,
         ts.filter (fun x => decide (tf - x < window))) := by
      simp only [check_rate_limit, if_pos hge]
    rw [this, hfilt]
  refine ⟨hall, by rw [hdeny], by rw [hdeny], by rw [hdeny], ?_, ?_⟩
  · intro n2 h2
    have hempty : ts.filter (fun x => decide (n2 - x < window)) = [] := by
      apply List.filter_eq_nil_iff.mpr
      intro x hx
      have := h2 x hx
      simp only [decide_eq_true_eq]
      omega
    have : ¬ maxAttempts ≤ ((ts.filter
        (fun x => decide (n2 - x < window))).length : Int) := by
      rw [hempty]
      simpa using hmax
    simp [check_rate_limit, this]
  · intro n3 l3 hlt
    simp [check_rate_limit, not_le.mpr hlt]

/-- Closed witness for C5 on the gate-secret category configuration
(window 300, max 5): five attempts inside the window, a denied sixth
with the computed wait, and an allowed call after the window. -/
theorem rate_limit_window_behaviour_witness :
    (check_rate_limit 300 5 15 [10, 11, 12, 13, 14]).1.allowed = false ∧
    (check_rate_limit 300 5 15 [10, 11, 12, 13, 14]).1.remaining_time =
      some (300 - (15 - 10)) ∧
    (check_rate_limit 300 5 400 [10, 11, 12, 13, 14]).1.allowed = true := by
  have h := rate_limit_window_behaviour 300 5 10 15 15 [10, 11, 12, 13, 14]
    (by decide) (by decide) (by decide) (by decide) (by decide)
  exact ⟨h.2.1, h.2.2.1,
    h.2.2.2.2.1 400 (by decide)⟩

/-! ### Registry helper lemmas -/

theorem filter_of_not_length_lt {α : Type} (p : α → Bool) (l : List α)
    (h : ¬ (l.filter p).length < l.length) : l.filter p = l := by
  have hle := List.length_filter_le p l
  have heq : (l.filter p).length = l.length := le_antisymm hle (not_lt.mp h)
  exact List.filter_eq_self.mpr (List.filter_length_eq_length.mp heq)

theorem RegInv_iff (st : Registry) : RegInv st ↔
    ∀ r ∈ st.data.pending_requests, ∀ u ∈ st.data.users,
      ¬ u.user_id = r.user_id := by
  simp [RegInv, is_user_allowed, List.all_eq_true, List.any_eq_true]

theorem is_user_allowed_false_iff (st : Registry) (user_id : Nat) :
    is_user_allowed st user_id = false ↔
      ∀ u ∈ st.data.users, ¬ u.user_id = user_id := by
  simp [is_user_allowed, List.any_eq_true]

theorem memPending_false_filter (st : Registry) (user_id : Nat)
    (h : memPending st user_id = false) :
    st.data.pending_requests.filter (fun r => decide (r.user_id ≠ user_id)) =
      st.data.pending_requests := by
  simp only [memPending, List.any_eq_false, decide_eq_true_eq] at h
  apply List.filter_eq_self.mpr
  intro r hr
  simpa using h r hr

theorem approve_user_eq_of_not_allowed (st : Registry) (user_id : Nat)
    (username : String) (now : Nat) (hall : is_user_allowed st user_id = false) :
    approve_user st user_id username now =
      (true, reg_save { st with data := { st.data with
        pending_requests := st.data.pending_requests.filter
          (fun r => decide (r.user_id ≠ user_id)),
        users := st.data.users ++ [⟨user_id, username, now⟩] } }) := by
  simp only [approve_user]
  rw [show is_user_allowed { st with data := { st.data with
      pending_requests := st.data.pending_requests.filter
        (fun r => decide (r.user_id ≠ user_id)) } } user_id =
      is_user_allowed st user_id from rfl, hall]
  rfl

theorem approve_user_eq_of_allowed (st : Registry) (user_id : Nat)
    (username : String) (now : Nat) (hall : is_user_allowed st user_id = true) :
    approve_user st user_id username now =
      (false, { st with data := { st.data with
        pending_requests := st.data.pending_requests.filter
          (fun r => decide (r.user_id ≠ user_id)) } }) := by
  simp only [approve_user]
  rw [show is_user_allowed { st with data := { st.data with
      pending_requests := st.data.pending_requests.filter
        (fun r => decide (r.user_id ≠ user_id)) } } user_id =
      is_user_allowed st user_id from rfl, hall]
  rfl

/-- C2 counterexample: the mutual-exclusion invariant fails on a
reachable registry.  From an empty registry, `add_user_request 1`,
`approve_user 1`, `add_user_request 1` leaves principal 1 both pending
and approved, because `add_user_request` never consults the approved
list. -/
theorem request_after_approve_breaks_mutual_exclusion :
    memPending (add_user_request
      (approve_user (add_user_request ⟨⟨[], []⟩, ⟨[], []⟩⟩ 1 "u" 0) 1 "u" 1).2
      1 "u" 2) 1 = true ∧
    is_user_allowed (add_user_request
      (approve_user (add_user_request ⟨⟨[], []⟩, ⟨[], []⟩⟩ 1 "u" 0) 1 "u" 1).2
      1 "u" 2) 1 = true := by decide

/-- C2 amended: `approve_user`, `deny_user` and `revoke_user_access`
always preserve the mutual-exclusion invariant, and `add_user_request`
preserves it provided the requesting principal is not already
approved (the code does not check this, so requesting access while
approved is the one violating operation). -/
theorem registry_ops_preserve_invariant (st : Registry) (user_id : Nat)
    (username : String) (now : Nat) (h : RegInv st) :
    (is_user_allowed st user_id = false →
      RegInv (add_user_request st user_id username now)) ∧
    RegInv (approve_user st user_id username now).2 ∧
    RegInv (deny_user st user_id username).2 ∧
    RegInv (revoke_user_access st user_id).2 := by
  rw [RegInv_iff] at h
  refine ⟨?_, ?_, ?_, ?_⟩
  · intro hnot
    by_cases hreq : st.data.pending_requests.any
        (fun r => decide (r.user_id = user_id)) = true
    · rw [add_user_request, if_pos hreq, RegInv_iff]
      exact h
    · rw [add_user_request, if_neg hreq, RegInv_iff]
      intro r hr u hu
      rcases List.mem_append.mp hr with hold | hnew
      · exact h r hold u hu
      · have : r = ⟨user_id, username, now⟩ := by simpa using hnew
        subst this
        exact (is_user_allowed_false_iff st user_id).mp hnot u hu
  · by_cases hall : is_user_allowed st user_id = true
    · rw [approve_user_eq_of_allowed st user_id username now hall, RegInv_iff]
      intro r hr u hu
      exact h r (List.mem_filter.mp hr).1 u hu
    · have hall' : is_user_allowed st user_id = false := by simpa using hall
      rw [approve_user_eq_of_not_allowed st user_id username now hall', RegInv_iff]
      intro r hr u hu
      have hrid : ¬ r.user_id = user_id := by
        simpa using (List.mem_filter.mp hr).2
      rcases List.mem_append.mp hu with hold | hnew
      · exact h r (List.mem_filter.mp hr).1 u hold
      · have : u = ⟨user_id, username, now⟩ := by simpa using hnew
        subst this
        intro hid
        exact hrid hid.symm
  · have hdata : (deny_user st user_id username).2.data =
        { st.data with pending_requests := st.data.pending_requests.filter (fun r => decide (r.user_id ≠ user_id)) } := by
      rw [deny_user]
      by_cases hc : (st.data.pending_requests.filter
          (fun r => decide (r.user_id ≠ user_id))).length <
          st.data.pending_requests.length
      · rw [if_pos hc]
        rfl
      · rw [if_neg hc]
    rw [RegInv_iff, hdata]
    intro r hr u hu
    exact h r (List.mem_filter.mp hr).1 u hu
  · have hdata : (revoke_user_access st user_id).2.data =
        { st.data with users := st.data.users.filter (fun u => decide (u.user_id ≠ user_id)) } := by
      rw [revoke_user_access]
      by_cases hc : (st.data.users.filter
          (fun u => decide (u.user_id ≠ user_id))).length <
          st.data.users.length
      · rw [if_pos hc]
        rfl
      · rw [if_neg hc]
    rw [RegInv_iff, hdata]
    intro r hr u hu
    exact h r hr u (List.mem_filter.mp hu).1

/-- Closed witness for the amended C2: approving the only pending
principal of a fresh registry keeps the invariant. -/
theorem registry_ops_preserve_invariant_witness :
    RegInv (approve_user ⟨⟨[], [⟨1, "u", 0⟩]⟩, ⟨[], [⟨1, "u", 0⟩]⟩⟩ 1 "u" 1).2 :=
  (registry_ops_preserve_invariant ⟨⟨[], [⟨1, "u", 0⟩]⟩, ⟨[], [⟨1, "u", 0⟩]⟩⟩
    1 "u" 1 rfl).2.1

/-- C3 counterexample: on the reachable registry where principal 1 is
both approved and pending, `approve_user` removes the pending request
in memory, but — being the already-approved branch — returns without
saving, so the persisted copy no longer equals the in-memory
registry. -/
theorem approve_already_approved_not_persisted :
    (approve_user (add_user_request
      (approve_user (add_user_request ⟨⟨[], []⟩, ⟨[], []⟩⟩ 1 "u" 0) 1 "u" 1).2
      1 "u" 2) 1 "u" 3).1 = false ∧
    (approve_user (add_user_request
      (approve_user (add_user_request ⟨⟨[], []⟩, ⟨[], []⟩⟩ 1 "u" 0) 1 "u" 1).2
      1 "u" 2) 1 "u" 3).2.data.pending_requests = [] ∧
    (approve_user (add_user_request
      (approve_user (add_user_request ⟨⟨[], []⟩, ⟨[], []⟩⟩ 1 "u" 0) 1 "u" 1).2
      1 "u" 2) 1 "u" 3).2.saved.pending_requests = [⟨1, "u", 2⟩] ∧
    ¬ (approve_user (add_user_request
      (approve_user (add_user_request ⟨⟨[], []⟩, ⟨[], []⟩⟩ 1 "u" 0) 1 "u" 1).2
      1 "u" 2) 1 "u" 3).2.saved = (approve_user (add_user_request
      (approve_user (add_user_request ⟨⟨[], []⟩, ⟨[], []⟩⟩ 1 "u" 0) 1 "u" 1).2
      1 "u" 2) 1 "u" 3).2.data := by decide

/-- C3 amended: starting from a registry whose persisted copy matches
memory, `add_user_request`, `deny_user` and `revoke_user_access`
leave persisted and in-memory registries equal, and so does
`approve_user` whenever it returns `true` or the principal has no
pending request; the single unpersisted mutation is `approve_user` on
an already-approved principal that still has a pending request. -/
theorem registry_ops_persist (st : Registry) (user_id : Nat)
    (username : String) (now : Nat) (h : InSync st) :
    InSync (add_user_request st user_id username now) ∧
    InSync (deny_user st user_id username).2 ∧
    InSync (revoke_user_access st user_id).2 ∧
    ((approve_user st user_id username now).1 = true →
      InSync (approve_user st user_id username now).2) ∧
    (memPending st user_id = false →
      InSync (approve_user st user_id username now).2) := by
  refine ⟨?_, ?_, ?_, ?_, ?_⟩
  · by_cases hreq : st.data.pending_requests.any
        (fun r => decide (r.user_id = user_id)) = true
    · rw [add_user_request, if_pos hreq]
      exact h
    · rw [add_user_request, if_neg hreq]
      rfl
  · rw [deny_user]
    by_cases hc : (st.data.pending_requests.filter
        (fun r => decide (r.user_id ≠ user_id))).length <
        st.data.pending_requests.length
    · rw [if_pos hc]
      rfl
    · rw [if_neg hc]
      show st.saved = _
      rw [h]
      have heq := filter_of_not_length_lt
        (fun r => decide (r.user_id ≠ user_id)) st.data.pending_requests hc
      rw [heq]
  · rw [revoke_user_access]
    by_cases hc : (st.data.users.filter
        (fun u => decide (u.user_id ≠ user_id))).length <
        st.data.users.length
    · rw [if_pos hc]
      rfl
    · rw [if_neg hc]
      show st.saved = _
      rw [h]
      have heq := filter_of_not_length_lt
        (fun u => decide (u.user_id ≠ user_id)) st.data.users hc
      rw [heq]
  · intro hret
    by_cases hall : is_user_allowed st user_id = true
    · rw [approve_user_eq_of_allowed st user_id username now hall] at hret
      cases hret
    · have hall' : is_user_allowed st user_id = false := by simpa using hall
      rw [approve_user_eq_of_not_allowed st user_id username now hall']
      rfl
  · intro hpend
    by_cases hall : is_user_allowed st user_id = true
    · rw [approve_user_eq_of_allowed st user_id username now hall]
      show st.saved = _
      rw [h]
      have heq := memPending_false_filter st user_id hpend
      rw [heq]
    · have hall' : is_user_allowed st user_id = false := by simpa using hall
      rw [approve_user_eq_of_not_allowed st user_id username now hall']
      rfl

/-- Closed witness for the amended C3: a request on a fresh in-sync
registry is persisted. -/
theorem registry_ops_persist_witness :
    InSync (add_user_request ⟨⟨[], []⟩, ⟨[], []⟩⟩ 1 "u" 0) :=
  (registry_ops_persist ⟨⟨[], []⟩, ⟨[], []⟩⟩ 1 "u" 0 rfl).1

end TelegramKey
